import Mathlib

/-!
Toolbox: CycleTimer, Averager and LazyArray

A shallow embedding of `src/CycleTimer.h`, `src/Averager.h` and `src/LazyArray.h`.

* `uint32_t` / `uint64_t` / `unsigned` / `unsigned long` values are natural numbers, with the
  wrap-around of the C++ type written out (`% 2 ^ 32`, `% 2 ^ 64`) wherever an operation can leave
  the range of its type.
* The inline assembly reads the time stamp counter; the value the counter holds when the
  instruction runs is an explicit argument `tsc` of every operation that contains such a block.
* The preprocessor macro `X86_64` is an explicit Boolean argument: with `false` the `#ifdef`
  blocks are absent, exactly as in the source.
* `double` is modelled by `ℚ` (exact arithmetic) in `time`.
* The element type `T` of the averagers is an abstract type with the operations the templates
  use; `Double` models their default `double` with the rounding of IEEE 754 binary64.
* An array access of `LazyArray` outside the array has no defined result: the operation returns
  `none` (or a result saying which read left the array). The calls on the allocator are returned
  with the new state, in the order they are made.
-/

namespace Toolbox

/-! ## Machine arithmetic -/

/-- Number of values of a `uint32_t` / `unsigned`. -/
def UINT32_SIZE : Nat := 2 ^ 32

/-- Number of values of a `uint64_t` (and of `unsigned long` on the LP64 targets of the code). -/
def UINT64_SIZE : Nat := 2 ^ 64

/-- Subtraction of two `uint64_t` values: the result wraps modulo `2 ^ 64`. -/
def sub64 (x y : Nat) : Nat := (x + (UINT64_SIZE - y % UINT64_SIZE)) % UINT64_SIZE

/-- The register `eax` after `rdtsc` / `rdtscp`: the low 32 bits of the counter. -/
def tscLow (tsc : Nat) : Nat := tsc % UINT32_SIZE

/-- The register `edx` after `rdtsc` / `rdtscp`: the high 32 bits of the counter. -/
def tscHigh (tsc : Nat) : Nat := (tsc / UINT32_SIZE) % UINT32_SIZE

/-! ## CycleTimer -/

/-- The four `uint32_t` data members of `CycleTimer`. -/
structure CycleTimer where
  start_low_ : Nat
  start_high_ : Nat
  stop_low_ : Nat
  stop_high_ : Nat
  deriving DecidableEq, Repr

namespace CycleTimer

/-- Helper `combineUint32(low, high)`: `(static_cast<uint64_t>(high) << 32) | low`. -/
def combineUint32 (low high : Nat) : Nat := ((high <<< 32) % UINT64_SIZE) ||| low

/-- The constructor `CycleTimer()`: all four members are `0`. -/
def new : CycleTimer :=
  { start_low_ := 0, start_high_ := 0, stop_low_ := 0, stop_high_ := 0 }

/-- Member `cycleCount()`: `low` and `high` are locals without an initialiser, so their first
contents are arguments; the `rdtsc` block overwrites both when `X86_64` is defined. -/
def cycleCount (X86_64 : Bool) (tsc : Nat) (low high : Nat) : Nat :=
  let low := if X86_64 then tscLow tsc else low
  let high := if X86_64 then tscHigh tsc else high
  ((high <<< 32) % UINT64_SIZE) ||| low

/-- Member `start()`: `cpuid; rdtsc` and two moves into `start_high_`, `start_low_` when
`X86_64` is defined; an empty body otherwise. -/
def start (X86_64 : Bool) (tsc : Nat) (t : CycleTimer) : CycleTimer :=
  if X86_64 then { t with start_high_ := tscHigh tsc, start_low_ := tscLow tsc } else t

/-- Member `stop()`: `rdtscp`, two moves into `stop_high_`, `stop_low_`, then `cpuid` when
`X86_64` is defined; an empty body otherwise. -/
def stop (X86_64 : Bool) (tsc : Nat) (t : CycleTimer) : CycleTimer :=
  if X86_64 then { t with stop_high_ := tscHigh tsc, stop_low_ := tscLow tsc } else t

/-- Member `checkCycles() const`: reads the counter into the locals `high`, `low` (whose first
contents are arguments, as they have no initialiser) and subtracts the recorded start. -/
def checkCycles (X86_64 : Bool) (tsc : Nat) (low high : Nat) (t : CycleTimer) : Nat :=
  let high := if X86_64 then tscHigh tsc else high
  let low := if X86_64 then tscLow tsc else low
  sub64 (combineUint32 low high) (combineUint32 t.start_low_ t.start_high_)

/-- Member `cycles() const`. -/
def cycles (t : CycleTimer) : Nat :=
  sub64 (combineUint32 t.stop_low_ t.stop_high_) (combineUint32 t.start_low_ t.start_high_)

/-- The spec's `start_ticks`: the 64-bit value held in `start_low_`, `start_high_`. -/
def start_ticks (t : CycleTimer) : Nat := combineUint32 t.start_low_ t.start_high_

/-- The spec's `stop_ticks`: the 64-bit value held in `stop_low_`, `stop_high_`. -/
def stop_ticks (t : CycleTimer) : Nat := combineUint32 t.stop_low_ t.stop_high_

/-- The time unit of the calls that return a time: `enum Unit : unsigned`. -/
inductive Unit where
  | s
  | ms
  | us
  | ns
  deriving DecidableEq, Repr

/-- The enumerator values `s = 1u`, `ms = 1000u`, `us = 1000000u`, `ns = 1000000000u`. -/
def Unit.val : Unit → Nat
  | .s => 1
  | .ms => 1000
  | .us => 1000000
  | .ns => 1000000000

/-- Member `clockRate() const`: the template parameter `CLOCK_RATE`. -/
def clockRate (CLOCK_RATE : Nat) : Nat := CLOCK_RATE

/-- Member `time<U>() const`, with `double` read as `ℚ`:
`static_cast<double>(cycles()) / (clockRate() / static_cast<double>(U))`. -/
def time (CLOCK_RATE : Nat) (U : Unit) (t : CycleTimer) : ℚ :=
  ((cycles t : Nat) : ℚ) / (((clockRate CLOCK_RATE : Nat) : ℚ) / ((U.val : Nat) : ℚ))

/-- Member `checkTime<U>() const`, with `double` read as `ℚ`. -/
def checkTime (CLOCK_RATE : Nat) (U : Unit) (X86_64 : Bool) (tsc : Nat) (low high : Nat)
    (t : CycleTimer) : ℚ :=
  ((checkCycles X86_64 tsc low high t : Nat) : ℚ) /
    (((clockRate CLOCK_RATE : Nat) : ℚ) / ((U.val : Nat) : ℚ))

/-- The member functions of the class, as the calls a client can make on a timer. -/
inductive Call where
  | clockRate
  | cycleCount
  | runningTime (U : Unit)
  | start
  | stop
  | checkCycles
  | cycles
  | time (U : Unit)
  | checkTime (U : Unit)
  deriving DecidableEq, Repr

/-- The object after one call made while the counter reads `tsc`. `start` and `stop` are the only
members that are neither `static` nor `const`; the others cannot write the object. -/
def Call.exec (X86_64 : Bool) (c : Call) (tsc : Nat) (t : CycleTimer) : CycleTimer :=
  match c with
  | .start => CycleTimer.start X86_64 tsc t
  | .stop => CycleTimer.stop X86_64 tsc t
  | _ => t

/-- The object after a sequence of calls, first call first, each with the counter value at the
time of the call. -/
def run (X86_64 : Bool) (h : List (Call × Nat)) (t : CycleTimer) : CycleTimer :=
  h.foldl (fun t e => Call.exec X86_64 e.1 e.2 t) t

/-- The counter value of the last call `c` in a sequence of calls, `init` when `c` was never
called. -/
def lastReading (c : Call) (init : Nat) (h : List (Call × Nat)) : Nat :=
  h.foldl (fun r e => if e.1 = c then e.2 else r) init

/-- The usage contract of `cycles()`: `stop()` has been called after the most recent `start()`.
The pair is (a `start()` has been seen, a `stop()` followed the last `start()`). -/
def stoppedAfterStart (h : List (Call × Nat)) : Bool :=
  (h.foldl (fun (st : Bool × Bool) e =>
    match e.1 with
    | .start => (true, false)
    | .stop => (st.1, st.1)
    | _ => st) (false, false)).2

end CycleTimer

/-! ## Averager -/

/-- The data members of `Averager<T>`; `count_` is an `unsigned long`. -/
structure Averager (T : Type) where
  count_ : Nat
  total_ : T

namespace Averager

variable {T : Type}

/-- The constructor `Averager() : count_(0), total_()`; `T()` is the zero of `T`. -/
def new [Zero T] : Averager T := { count_ := 0, total_ := 0 }

/-- Member `add(value)`: `total_ += value; count_ += 1;` where the count wraps like an
`unsigned long`, a type with `ULONG_SIZE` values (`2 ^ 64` on LP64 targets, `2 ^ 32` where
`unsigned long` has 32 bits). -/
def add [Add T] (ULONG_SIZE : Nat) (value : T) (a : Averager T) : Averager T :=
  { total_ := a.total_ + value, count_ := (a.count_ + 1) % ULONG_SIZE }

/-- Member `average() const`: `total_ / static_cast<T>(count_)`. -/
def average [Div T] [NatCast T] (a : Averager T) : T := a.total_ / ((a.count_ : Nat) : T)

/-- Member `total() const`. -/
def total (a : Averager T) : T := a.total_

/-- The calls `add(v1); ...; add(vn)` in this order. -/
def addAll [Add T] (ULONG_SIZE : Nat) (vs : List T) (a : Averager T) : Averager T :=
  vs.foldl (fun a v => a.add ULONG_SIZE v) a

end Averager

/-! ## RunningAverager -/

/-- The data members of `RunningAverager<VALUES, T>`: the array `T values_[VALUES]` as a list of
length `VALUES`, the running total and the `unsigned` write position. -/
structure RunningAverager (T : Type) where
  values_ : List T
  running_total_ : T
  next_ : Nat

namespace RunningAverager

variable {T : Type}

/-- Helper `increment(&variable)`: `(*variable == VALUES-1) ? 0 : *variable + 1` on `unsigned`. -/
def increment (VALUES : Nat) (var : Nat) : Nat :=
  if var = (VALUES + UINT32_SIZE - 1) % UINT32_SIZE then 0 else (var + 1) % UINT32_SIZE

/-- The constructor `RunningAverager() : values_{}, running_total_(), next_(0)`: every element of
the array is value-initialised. -/
def new [Zero T] (VALUES : Nat) : RunningAverager T :=
  { values_ := List.replicate VALUES 0, running_total_ := 0, next_ := 0 }

/-- Member `add(value)`: `running_total_ -= values_[next_]; running_total_ += value;
values_[next_] = value; increment(&next_);`. The read `values_[next_]` is inside the array
whenever `next_ < VALUES`; the default of `getD` is never used then. -/
def add [Zero T] [Add T] [Sub T] (VALUES : Nat) (value : T) (r : RunningAverager T) :
    RunningAverager T :=
  { running_total_ := (r.running_total_ - r.values_.getD r.next_ 0) + value,
    values_ := r.values_.set r.next_ value,
    next_ := increment VALUES r.next_ }

/-- Member `average() const`: `running_total_ / static_cast<T>(VALUES)`. -/
def average [Div T] [NatCast T] (VALUES : Nat) (r : RunningAverager T) : T :=
  r.running_total_ / ((VALUES : Nat) : T)

/-- Member `total() const`. -/
def total (r : RunningAverager T) : T := r.running_total_

/-- The calls `add(v1); ...; add(vk)` in this order. -/
def addAll [Zero T] [Add T] [Sub T] (VALUES : Nat) (vs : List T) (r : RunningAverager T) :
    RunningAverager T :=
  vs.foldl (fun r v => r.add VALUES v) r

end RunningAverager

/-! ## LazyArray -/

/-- A call made on the allocator member `alloc`: `alloc.destroy(&array_[position])`, with what
the slot held when it was called, or `alloc.construct(&array_[position], args...)`, with the
object it built there. -/
inductive AllocCall (T : Type) where
  | destroy (position : Nat) (slot : Option T)
  | construct (position : Nat) (obj : T)
  deriving DecidableEq, Repr

/-- The data members of `LazyArray<T, N>`: the flags `bool set_[N]` and the storage behind
`array_` (`raw_array_`), one slot per position. A slot is `none` while it is raw storage without
a live object and `some x` while the object `x` lives there. -/
structure LazyArray (T : Type) where
  set_ : List Bool
  array_ : List (Option T)
  deriving DecidableEq, Repr

/-- The message of a `std::out_of_range` thrown by `at(i)`: `"index out of range"` or
`"value not set"`. -/
inductive OutOfRange where
  | index_out_of_range
  | value_not_set
  deriving DecidableEq, Repr

/-- What a call of `at(i)` does: it returns `array_[i]`, it throws a `std::out_of_range`, or it
reads `set_[i]` (or `array_[i]`) at a position outside the array, which has no defined result. -/
inductive AtResult (T : Type) where
  | element (slot : Option T)
  | out_of_range (what : OutOfRange)
  | read_outside_set
  | read_outside_array
  deriving DecidableEq, Repr

namespace LazyArray

variable {T : Type}

/-- Both arrays have the `N` positions of the template argument. -/
def WF (N : Nat) (s : LazyArray T) : Prop := s.set_.length = N ∧ s.array_.length = N

/-- The constructor `LazyArray()`: `memset(set_, false, sizeof(set_))` over storage in which no
object has been constructed. -/
def new (N : Nat) : LazyArray T :=
  { set_ := List.replicate N false, array_ := List.replicate N none }

/-- Member `size() const`: `N`. -/
def size (N : Nat) (_s : LazyArray T) : Nat := N

/-- Member `valid(i) const`: `set_[i]`; `none` when the read is outside `set_`. -/
def valid (i : Nat) (s : LazyArray T) : Option Bool := s.set_[i]?

/-- Member `emplace(position, args...)`:
`if (set_[position]) alloc.destroy(&array_[position]); else set_[position] = true;
alloc.construct(&array_[position], args...);` where `ctor` is the constructor of `T` that
`construct` runs on `args`. The result is the array after the call and the allocator calls made,
in order; `none` when `set_[position]` is outside the array. -/
def emplace {A : Type} (ctor : A → T) (position : Nat) (args : A) (s : LazyArray T) :
    Option (LazyArray T × List (AllocCall T)) :=
  match s.set_[position]? with
  | none => none
  | some flag =>
    let destroyed : List (AllocCall T) :=
      if flag then [AllocCall.destroy position (s.array_.getD position none)] else []
    let array1 := if flag then s.array_.set position none else s.array_
    let set1 := if flag then s.set_ else s.set_.set position true
    some ({ set_ := set1, array_ := array1.set position (some (ctor args)) },
      destroyed ++ [AllocCall.construct position (ctor args)])

/-- Member `destroy(position)`:
`if (set_[position]) { alloc.destroy(&array_[position]); set_[position] = false; }`.
The result is the array after the call and the allocator calls made; `none` when
`set_[position]` is outside the array. -/
def destroy (position : Nat) (s : LazyArray T) : Option (LazyArray T × List (AllocCall T)) :=
  match s.set_[position]? with
  | none => none
  | some true =>
    some ({ set_ := s.set_.set position false, array_ := s.array_.set position none },
      [AllocCall.destroy position (s.array_.getD position none)])
  | some false => some (s, [])

/-- Member `at(i)` (both overloads; `at` is reserved in Lean):
`if (i > N) throw std::out_of_range("index out of range");
if (!set_[i]) throw std::out_of_range("value not set"); return array_[i];`. -/
def at_ (N : Nat) (i : Nat) (s : LazyArray T) : AtResult T :=
  if i > N then AtResult.out_of_range OutOfRange.index_out_of_range
  else
    match s.set_[i]? with
    | none => AtResult.read_outside_set
    | some false => AtResult.out_of_range OutOfRange.value_not_set
    | some true =>
      match s.array_[i]? with
      | none => AtResult.read_outside_array
      | some slot => AtResult.element slot

end LazyArray

/-! ## The default element type `double` -/

/-- The position of the highest set bit of `n` (`0` for `n < 2`), looking at no more than `fuel`
bits; `log2Fuel n n` is the integer part of the binary logarithm of `n`. -/
def log2Fuel : Nat → Nat → Nat
  | 0, _ => 0
  | fuel + 1, n => if n < 2 then 0 else log2Fuel fuel (n / 2) + 1

/-- A finite `double` (IEEE 754 binary64) as the number `mant * 2 ^ exp`, kept in the form where
`mant` is odd, or `mant = 0` and `exp = 0`. The range of the exponent is not modelled (no overflow
to an infinity, no subnormal numbers), zero has no sign, and there is no infinity or NaN. -/
structure Double where
  mant : Int
  exp : Int
  deriving DecidableEq, Repr

namespace Double

/-- The form with an odd `mant`: halve `m` while it is even, at most `fuel` times. -/
def normalize : Nat → Int → Int → Double
  | 0, m, e => { mant := m, exp := e }
  | fuel + 1, m, e =>
    if m = 0 then { mant := 0, exp := 0 }
    else if m % 2 = 0 then normalize fuel (m / 2) (e + 1)
    else { mant := m, exp := e }

/-- The `double` nearest to the fraction `n / d` (negated when `negative`): round to nearest with
a significand of 53 bits, ties to the even significand. The exponent `e` is chosen with
`2 ^ 52 ≤ n / (d * 2 ^ e) < 2 ^ 53`, the quotient is rounded to the integer `m1`, and the result
is `m1 * 2 ^ e`. A denominator `0` (division by zero, which gives an infinity or a NaN in C++) is
outside the model and gives `0`. -/
def round (negative : Bool) (n d : Nat) : Double :=
  if n = 0 ∨ d = 0 then { mant := 0, exp := 0 }
  else
    let e0 : Int := (log2Fuel n n : Int) - (log2Fuel d d : Int) - 52
    let e : Int := if n * 2 ^ (-e0).toNat < 2 ^ 52 * (d * 2 ^ e0.toNat) then e0 - 1 else e0
    let num : Nat := n * 2 ^ (-e).toNat
    let den : Nat := d * 2 ^ e.toNat
    let m : Nat := num / den
    let r : Nat := num % den
    let m1 : Nat := if den < 2 * r ∨ (2 * r = den ∧ m % 2 = 1) then m + 1 else m
    normalize (m1 + 1) (if negative then -(m1 : Int) else (m1 : Int)) e

/-- The operator `a + b` on `double`: the exact sum, rounded. -/
def add (a b : Double) : Double :=
  let e : Int := min a.exp b.exp
  let s : Int := a.mant * 2 ^ (a.exp - e).toNat + b.mant * 2 ^ (b.exp - e).toNat
  round (decide (s < 0)) (s.natAbs * 2 ^ e.toNat) (2 ^ (-e).toNat)

/-- The operator `a - b` on `double`: the exact difference, rounded. -/
def sub (a b : Double) : Double :=
  let e : Int := min a.exp b.exp
  let s : Int := a.mant * 2 ^ (a.exp - e).toNat - b.mant * 2 ^ (b.exp - e).toNat
  round (decide (s < 0)) (s.natAbs * 2 ^ e.toNat) (2 ^ (-e).toNat)

/-- The operator `a / b` on `double`: the exact quotient, rounded. -/
def div (a b : Double) : Double :=
  round (decide ((a.mant < 0) ≠ (b.mant < 0)))
    (a.mant.natAbs * 2 ^ (a.exp - b.exp).toNat) (b.mant.natAbs * 2 ^ (b.exp - a.exp).toNat)

/-- The conversion `static_cast<double>(n)` of an unsigned integer, and the value of a literal
such as `1e16`: the `double` nearest to `n`. -/
def ofNat (n : Nat) : Double := round false n 1

instance : Zero Double := ⟨{ mant := 0, exp := 0 }⟩

instance : Add Double := ⟨Double.add⟩

instance : Sub Double := ⟨Double.sub⟩

instance : Div Double := ⟨Double.div⟩

instance : NatCast Double := ⟨Double.ofNat⟩

end Double

/-! ## Vocabulary of the specification -/

/-- The last `n` elements of a list (the whole list when it has fewer). -/
def lastN {T : Type} (n : Nat) (vs : List T) : List T := vs.drop (vs.length - n)

/-- The mean of a list of values in the arithmetic of `T`: their sum divided by their number. -/
def mean {T : Type} [Zero T] [Add T] [Div T] [NatCast T] (vs : List T) : T :=
  vs.sum / ((vs.length : Nat) : T)

/-! ## Lemmas on the machine arithmetic -/

theorem combineUint32_eq (low high : Nat) (hl : low < UINT32_SIZE) (hh : high < UINT32_SIZE) :
    CycleTimer.combineUint32 low high = high * 2 ^ 32 + low := by
  unfold UINT32_SIZE at hl hh
  unfold CycleTimer.combineUint32 UINT64_SIZE
  rw [Nat.shiftLeft_eq, Nat.mod_eq_of_lt (by omega), Nat.mul_comm]
  exact (Nat.mul_add_lt_is_or hl high).symm

theorem tscLow_lt (tsc : Nat) : tscLow tsc < UINT32_SIZE :=
  Nat.mod_lt _ (by unfold UINT32_SIZE; omega)

theorem tscHigh_lt (tsc : Nat) : tscHigh tsc < UINT32_SIZE :=
  Nat.mod_lt _ (by unfold UINT32_SIZE; omega)

theorem combineUint32_tsc_mod (tsc : Nat) :
    CycleTimer.combineUint32 (tscLow tsc) (tscHigh tsc) = tsc % UINT64_SIZE := by
  rw [combineUint32_eq _ _ (tscLow_lt tsc) (tscHigh_lt tsc)]
  unfold tscLow tscHigh UINT32_SIZE UINT64_SIZE
  omega

theorem sub64_eq_emod (x y : Nat) :
    ((sub64 x y : Nat) : Int) = ((x : Int) - (y : Int)) % (2 ^ 64 : Int) := by
  unfold sub64
  unfold UINT64_SIZE at *
  omega

theorem sub64_mod_left (x y : Nat) : sub64 (x % UINT64_SIZE) y = sub64 x y := by
  unfold sub64
  unfold UINT64_SIZE at *
  omega

theorem sub64_of_le (x y : Nat) (hx : x < UINT64_SIZE) (hyx : y ≤ x) : sub64 x y = x - y := by
  unfold sub64
  unfold UINT64_SIZE at *
  omega

/-! ## CycleTimer: what a start/stop pair measures -/

theorem start_ticks_start (t : CycleTimer) (tsc : Nat) :
    (CycleTimer.start true tsc t).start_ticks = tsc % UINT64_SIZE := by
  simp [CycleTimer.start, CycleTimer.start_ticks, combineUint32_tsc_mod]

theorem stop_ticks_stop (t : CycleTimer) (tsc : Nat) :
    (CycleTimer.stop true tsc t).stop_ticks = tsc % UINT64_SIZE := by
  simp [CycleTimer.stop, CycleTimer.stop_ticks, combineUint32_tsc_mod]

theorem start_ticks_stop (X : Bool) (t : CycleTimer) (tsc : Nat) :
    (CycleTimer.stop X tsc t).start_ticks = t.start_ticks := by
  cases X <;> rfl

theorem stop_ticks_start (X : Bool) (t : CycleTimer) (tsc : Nat) :
    (CycleTimer.start X tsc t).stop_ticks = t.stop_ticks := by
  cases X <;> rfl

theorem cycles_eq_sub64 (t : CycleTimer) :
    t.cycles = sub64 t.stop_ticks t.start_ticks := rfl

theorem cycles_stop_start (t : CycleTimer) (a b : Nat) :
    (CycleTimer.stop true b (CycleTimer.start true a t)).cycles
      = sub64 b (a % UINT64_SIZE) := by
  rw [cycles_eq_sub64, stop_ticks_stop]
  have h : (CycleTimer.stop true b (CycleTimer.start true a t)).start_ticks
      = (CycleTimer.start true a t).start_ticks := rfl
  rw [h, start_ticks_start, sub64_mod_left]

/-- C1: when `start()` records the 64-bit counter reading `a` and `stop()` then records the
64-bit reading `b`, `cycles()` returns `(b - a) mod 2 ^ 64`; it returns exactly `b - a` when
`a ≤ b`, and a value greater than `0` when `a < b`. -/
theorem cycles_start_stop (t : CycleTimer) (a b : Nat)
    (ha : a < UINT64_SIZE) (hb : b < UINT64_SIZE) :
    (CycleTimer.start true a t).start_low_ = a % 2 ^ 32 ∧
    (CycleTimer.start true a t).start_high_ = a / 2 ^ 32 ∧
    (((CycleTimer.stop true b (CycleTimer.start true a t)).cycles : Nat) : Int)
      = ((b : Int) - (a : Int)) % (2 ^ 64 : Int) ∧
    (a ≤ b → (CycleTimer.stop true b (CycleTimer.start true a t)).cycles = b - a) ∧
    (a < b → 0 < (CycleTimer.stop true b (CycleTimer.start true a t)).cycles) := by
  have hc := cycles_stop_start t a b
  rw [Nat.mod_eq_of_lt ha] at hc
  refine ⟨?_, ?_, ?_, ?_, ?_⟩
  · simp [CycleTimer.start, tscLow, UINT32_SIZE]
  · simp only [CycleTimer.start, tscHigh, UINT32_SIZE, if_true]
    unfold UINT64_SIZE at ha
    omega
  · rw [hc]; exact sub64_eq_emod b a
  · intro hab; rw [hc]; exact sub64_of_le b a hb hab
  · intro hab
    rw [hc, sub64_of_le b a hb (Nat.le_of_lt hab)]
    omega

theorem cycles_start_stop_witness :
    (5 : Nat) < UINT64_SIZE ∧ (3 : Nat) < UINT64_SIZE ∧
    (((CycleTimer.stop true 3 (CycleTimer.start true 5 CycleTimer.new)).cycles : Nat) : Int)
      = ((3 : Int) - (5 : Int)) % (2 ^ 64 : Int) :=
  ⟨by decide, by decide,
    (cycles_start_stop CycleTimer.new 5 3 (by decide) (by decide)).2.2.1⟩

/-! ## CycleTimer: peeking with `checkCycles` -/

theorem checkCycles_eq_sub64 (t : CycleTimer) (now low high : Nat) :
    CycleTimer.checkCycles true now low high t = sub64 now t.start_ticks := by
  simp only [CycleTimer.checkCycles, CycleTimer.start_ticks, if_true, combineUint32_tsc_mod,
    sub64_mod_left]

/-- C2: for every timer state and every counter reading `now`, `checkCycles()` returns
`(now - start_ticks) mod 2 ^ 64` and the timer is the same object after the call: `start_ticks`
and `stop_ticks` are unchanged and a following `cycles()` returns what it returned before. -/
theorem checkCycles_value_and_frame (t : CycleTimer) (now low high : Nat) :
    (((CycleTimer.checkCycles true now low high t : Nat) : Int)
      = ((now : Int) - (t.start_ticks : Int)) % (2 ^ 64 : Int)) ∧
    CycleTimer.Call.exec true CycleTimer.Call.checkCycles now t = t ∧
    (CycleTimer.Call.exec true CycleTimer.Call.checkCycles now t).start_ticks = t.start_ticks ∧
    (CycleTimer.Call.exec true CycleTimer.Call.checkCycles now t).stop_ticks = t.stop_ticks ∧
    (CycleTimer.Call.exec true CycleTimer.Call.checkCycles now t).cycles = t.cycles := by
  refine ⟨?_, rfl, rfl, rfl, rfl⟩
  rw [checkCycles_eq_sub64]
  exact sub64_eq_emod now t.start_ticks

/-! ## CycleTimer: life cycle of the state -/

/-- C3: a new timer has `start_ticks = stop_ticks = 0`; `start()` sets `start_ticks` to the
counter reading and leaves the stop members alone, `stop()` sets `stop_ticks` to the reading and
leaves the start members alone, and every other member function leaves the object as it was. -/
theorem state_changed_only_by_start_stop (t : CycleTimer) (tsc : Nat) (h : tsc < UINT64_SIZE) :
    CycleTimer.new.start_ticks = 0 ∧ CycleTimer.new.stop_ticks = 0 ∧
    (CycleTimer.start true tsc t).start_ticks = tsc ∧
    (CycleTimer.start true tsc t).stop_ticks = t.stop_ticks ∧
    (CycleTimer.start true tsc t).stop_low_ = t.stop_low_ ∧
    (CycleTimer.start true tsc t).stop_high_ = t.stop_high_ ∧
    (CycleTimer.stop true tsc t).stop_ticks = tsc ∧
    (CycleTimer.stop true tsc t).start_ticks = t.start_ticks ∧
    (CycleTimer.stop true tsc t).start_low_ = t.start_low_ ∧
    (CycleTimer.stop true tsc t).start_high_ = t.start_high_ ∧
    (∀ c : CycleTimer.Call, c ≠ CycleTimer.Call.start → c ≠ CycleTimer.Call.stop →
      CycleTimer.Call.exec true c tsc t = t) := by
  refine ⟨by decide, by decide, ?_, rfl, rfl, rfl, ?_, rfl, rfl, rfl, ?_⟩
  · rw [start_ticks_start, Nat.mod_eq_of_lt h]
  · rw [stop_ticks_stop, Nat.mod_eq_of_lt h]
  · intro c hstart hstop
    cases c <;> first | rfl | exact absurd rfl hstart | exact absurd rfl hstop

theorem state_changed_only_by_start_stop_witness :
    (7 : Nat) < UINT64_SIZE ∧
    (CycleTimer.start true 7 CycleTimer.new).start_ticks = 7 ∧
    (CycleTimer.stop true 7 CycleTimer.new).stop_ticks = 7 :=
  ⟨by decide,
    (state_changed_only_by_start_stop CycleTimer.new 7 (by decide)).2.2.1,
    (state_changed_only_by_start_stop CycleTimer.new 7 (by decide)).2.2.2.2.2.2.1⟩

/-! ## CycleTimer: repeated checks -/

/-- C5: after `start()` at counter reading `s`, two checks made at later readings
`s ≤ n1 ≤ n2` (the second on the object the first one left) return values in that order:
the value of `checkCycles()` at `n1` is at most the value at `n2`. -/
theorem checkCycles_monotone (t0 : CycleTimer) (s n1 n2 l1 h1 l2 h2 : Nat)
    (hs : s ≤ n1) (h12 : n1 ≤ n2) (hn2 : n2 < UINT64_SIZE) :
    CycleTimer.checkCycles true n1 l1 h1 (CycleTimer.start true s t0)
      ≤ CycleTimer.checkCycles true n2 l2 h2
          (CycleTimer.Call.exec true CycleTimer.Call.checkCycles n1
            (CycleTimer.start true s t0)) ∧
    CycleTimer.checkCycles true n1 l1 h1 (CycleTimer.start true s t0) = n1 - s ∧
    CycleTimer.checkCycles true n2 l2 h2 (CycleTimer.start true s t0) = n2 - s := by
  have hexec : CycleTimer.Call.exec true CycleTimer.Call.checkCycles n1
      (CycleTimer.start true s t0) = CycleTimer.start true s t0 := rfl
  have hs64 : s % UINT64_SIZE = s := Nat.mod_eq_of_lt (by omega)
  rw [hexec, checkCycles_eq_sub64, checkCycles_eq_sub64, start_ticks_start, hs64,
    sub64_of_le n1 s (by omega) hs, sub64_of_le n2 s hn2 (by omega)]
  omega

theorem checkCycles_monotone_witness :
    (10 : Nat) ≤ 12 ∧ (12 : Nat) ≤ 20 ∧ (20 : Nat) < UINT64_SIZE ∧
    CycleTimer.checkCycles true 12 0 0 (CycleTimer.start true 10 CycleTimer.new)
      ≤ CycleTimer.checkCycles true 20 0 0
          (CycleTimer.Call.exec true CycleTimer.Call.checkCycles 12
            (CycleTimer.start true 10 CycleTimer.new)) :=
  ⟨by decide, by decide, by decide,
    (checkCycles_monotone CycleTimer.new 10 12 20 0 0 0 0 (by decide) (by decide)
      (by decide)).1⟩

/-! ## CycleTimer: a platform without the `X86_64` macro -/

/-- C4, counterexample: without the `X86_64` macro, `start()` at counter reading 100 and `stop()`
at reading 200 on a new timer leave the timer as constructed, and `cycles()` returns `0`. -/
theorem cycles_without_counter_is_zero :
    CycleTimer.start false 100 CycleTimer.new = CycleTimer.new ∧
    CycleTimer.stop false 200 (CycleTimer.start false 100 CycleTimer.new) = CycleTimer.new ∧
    (CycleTimer.stop false 200 (CycleTimer.start false 100 CycleTimer.new)).cycles = 0 := by
  decide

/-- C4, amended: without the `X86_64` macro no operation has an error result. `start()` and
`stop()` leave the timer unchanged whatever the counter reads, so `cycles()` after them returns
what it returned before, which is `0` on a new timer; `cycleCount()` and `checkCycles()` compute
their result from the never-written locals `low`, `high`, independently of the counter. -/
theorem no_counter_operations (t : CycleTimer) (tsc1 tsc2 low high : Nat) :
    CycleTimer.start false tsc1 t = t ∧
    CycleTimer.stop false tsc2 t = t ∧
    (CycleTimer.stop false tsc2 (CycleTimer.start false tsc1 t)).cycles = t.cycles ∧
    (CycleTimer.stop false tsc2 (CycleTimer.start false tsc1 CycleTimer.new)).cycles = 0 ∧
    CycleTimer.cycleCount false tsc1 low high = CycleTimer.combineUint32 low high ∧
    CycleTimer.checkCycles false tsc1 low high t
      = sub64 (CycleTimer.combineUint32 low high) t.start_ticks := by
  refine ⟨rfl, rfl, rfl, ?_, rfl, rfl⟩
  show CycleTimer.new.cycles = 0
  decide

/-! ## CycleTimer: calls out of order -/

theorem start_ticks_run (h : List (CycleTimer.Call × Nat)) (t : CycleTimer) :
    (CycleTimer.run true h t).start_ticks
      = CycleTimer.lastReading CycleTimer.Call.start t.start_ticks
          (h.map (fun e => (e.1, e.2 % UINT64_SIZE))) := by
  induction h generalizing t with
  | nil => rfl
  | cons e h ih =>
    have hstep : CycleTimer.run true (e :: h) t
        = CycleTimer.run true h (CycleTimer.Call.exec true e.1 e.2 t) := rfl
    rw [hstep, ih]
    obtain ⟨c, r⟩ := e
    cases c <;>
      simp [CycleTimer.lastReading, CycleTimer.Call.exec, start_ticks_start, start_ticks_stop]

theorem stop_ticks_run (h : List (CycleTimer.Call × Nat)) (t : CycleTimer) :
    (CycleTimer.run true h t).stop_ticks
      = CycleTimer.lastReading CycleTimer.Call.stop t.stop_ticks
          (h.map (fun e => (e.1, e.2 % UINT64_SIZE))) := by
  induction h generalizing t with
  | nil => rfl
  | cons e h ih =>
    have hstep : CycleTimer.run true (e :: h) t
        = CycleTimer.run true h (CycleTimer.Call.exec true e.1 e.2 t) := rfl
    rw [hstep, ih]
    obtain ⟨c, r⟩ := e
    cases c <;>
      simp [CycleTimer.lastReading, CycleTimer.Call.exec, stop_ticks_stop, stop_ticks_start]

theorem map_mod_readings (h : List (CycleTimer.Call × Nat))
    (hr : ∀ e ∈ h, e.2 < UINT64_SIZE) :
    h.map (fun e => (e.1, e.2 % UINT64_SIZE)) = h := by
  induction h with
  | nil => rfl
  | cons e h ih =>
    have he : e.2 % UINT64_SIZE = e.2 := Nat.mod_eq_of_lt (hr e (List.mem_cons_self e h))
    have hh : ∀ e' ∈ h, e'.2 < UINT64_SIZE := fun e' hm => hr e' (List.mem_cons_of_mem e hm)
    simp [he, ih hh]

/-- C6, counterexample: three call sequences with no `stop()` after the most recent `start()`.
On a fresh timer `cycles()` returns `0`; after `start()` alone at reading 5 (or 7) it returns
`2 ^ 64 - 5` (or `2 ^ 64 - 7`); after `start()`, `stop()` at 8, `start()` at 9 it returns
`2 ^ 64 - 1`. So such states do not all give a zero, nor all a non-zero value. -/
theorem misuse_results_differ :
    CycleTimer.stoppedAfterStart [] = false ∧
    CycleTimer.stoppedAfterStart [(CycleTimer.Call.start, 5)] = false ∧
    CycleTimer.stoppedAfterStart
      [(CycleTimer.Call.start, 5), (CycleTimer.Call.stop, 8), (CycleTimer.Call.start, 9)]
      = false ∧
    (CycleTimer.run true [] CycleTimer.new).cycles = 0 ∧
    (CycleTimer.run true [(CycleTimer.Call.start, 5)] CycleTimer.new).cycles = 2 ^ 64 - 5 ∧
    (CycleTimer.run true [(CycleTimer.Call.start, 7)] CycleTimer.new).cycles = 2 ^ 64 - 7 ∧
    (CycleTimer.run true
      [(CycleTimer.Call.start, 5), (CycleTimer.Call.stop, 8), (CycleTimer.Call.start, 9)]
      CycleTimer.new).cycles = 2 ^ 64 - 1 ∧
    ¬ (∀ h1 h2 : List (CycleTimer.Call × Nat),
        CycleTimer.stoppedAfterStart h1 = false → CycleTimer.stoppedAfterStart h2 = false →
        ((CycleTimer.run true h1 CycleTimer.new).cycles = 0 ↔
          (CycleTimer.run true h2 CycleTimer.new).cycles = 0)) := by
  refine ⟨by decide, by decide, by decide, by decide, by decide, by decide, by decide, ?_⟩
  intro hall
  have h := hall [] [(CycleTimer.Call.start, 5)] (by decide) (by decide)
  exact absurd (h.mp (by decide)) (by decide)

/-- C6, amended: `cycles()` does not look at the order of the calls. After any sequence of calls
on a new timer it returns `(r_stop - r_start) mod 2 ^ 64`, where `r_stop` and `r_start` are the
counter readings of the last `stop()` and of the last `start()`, `0` when there was none; this is
`0` on a fresh timer and `2 ^ 64 - a` after `start()` alone at a reading `a > 0`. -/
theorem cycles_any_call_order (h : List (CycleTimer.Call × Nat))
    (hr : ∀ e ∈ h, e.2 < UINT64_SIZE) :
    (CycleTimer.run true h CycleTimer.new).cycles
      = sub64 (CycleTimer.lastReading CycleTimer.Call.stop 0 h)
          (CycleTimer.lastReading CycleTimer.Call.start 0 h) ∧
    (((CycleTimer.run true h CycleTimer.new).cycles : Nat) : Int)
      = (((CycleTimer.lastReading CycleTimer.Call.stop 0 h : Nat) : Int)
          - ((CycleTimer.lastReading CycleTimer.Call.start 0 h : Nat) : Int)) % (2 ^ 64 : Int) ∧
    (CycleTimer.run true [] CycleTimer.new).cycles = 0 ∧
    (∀ a : Nat, 0 < a → a < UINT64_SIZE →
      (CycleTimer.run true [(CycleTimer.Call.start, a)] CycleTimer.new).cycles = 2 ^ 64 - a) := by
  have hmain : ∀ h' : List (CycleTimer.Call × Nat), (∀ e ∈ h', e.2 < UINT64_SIZE) →
      (CycleTimer.run true h' CycleTimer.new).cycles
        = sub64 (CycleTimer.lastReading CycleTimer.Call.stop 0 h')
            (CycleTimer.lastReading CycleTimer.Call.start 0 h') := by
    intro h' hr'
    rw [cycles_eq_sub64, start_ticks_run, stop_ticks_run, map_mod_readings h' hr']
    rfl
  refine ⟨hmain h hr, ?_, by decide, ?_⟩
  · rw [hmain h hr]
    exact sub64_eq_emod _ _
  · intro a ha0 ha
    rw [hmain [(CycleTimer.Call.start, a)] (by simpa using ha)]
    have hstop : CycleTimer.lastReading CycleTimer.Call.stop 0
        [(CycleTimer.Call.start, a)] = 0 := rfl
    have hstart : CycleTimer.lastReading CycleTimer.Call.start 0
        [(CycleTimer.Call.start, a)] = a := rfl
    rw [hstop, hstart]
    unfold sub64
    unfold UINT64_SIZE at *
    omega

theorem cycles_any_call_order_witness :
    (∀ e ∈ [(CycleTimer.Call.start, 5), (CycleTimer.Call.stop, 8), (CycleTimer.Call.start, 9)],
      e.2 < UINT64_SIZE) ∧
    (CycleTimer.run true
      [(CycleTimer.Call.start, 5), (CycleTimer.Call.stop, 8), (CycleTimer.Call.start, 9)]
      CycleTimer.new).cycles
      = sub64
          (CycleTimer.lastReading CycleTimer.Call.stop 0
            [(CycleTimer.Call.start, 5), (CycleTimer.Call.stop, 8), (CycleTimer.Call.start, 9)])
          (CycleTimer.lastReading CycleTimer.Call.start 0
            [(CycleTimer.Call.start, 5), (CycleTimer.Call.stop, 8), (CycleTimer.Call.start, 9)]) :=
  ⟨by decide,
    (cycles_any_call_order
      [(CycleTimer.Call.start, 5), (CycleTimer.Call.stop, 8), (CycleTimer.Call.start, 9)]
      (by decide)).1⟩

/-! ## CycleTimer: conversion to a time -/

/-- C7: with `double` read as exact rational arithmetic and a clock rate greater than `0`,
`time<U>()` is `cycles() / (clock_rate / U)` for each of the four units; hence
`time<ms>() = time<s>() * 1000` and `time<s>() * clock_rate = cycles()`. -/
theorem time_unit_conversion (CLOCK_RATE : Nat) (hc : 0 < CLOCK_RATE) (t : CycleTimer) :
    (∀ U : CycleTimer.Unit, CycleTimer.time CLOCK_RATE U t
      = ((t.cycles : Nat) : ℚ) / (((CLOCK_RATE : Nat) : ℚ) / ((U.val : Nat) : ℚ))) ∧
    CycleTimer.Unit.s.val = 1 ∧ CycleTimer.Unit.ms.val = 1000 ∧
    CycleTimer.Unit.us.val = 1000000 ∧ CycleTimer.Unit.ns.val = 1000000000 ∧
    CycleTimer.time CLOCK_RATE CycleTimer.Unit.ms t
      = CycleTimer.time CLOCK_RATE CycleTimer.Unit.s t * 1000 ∧
    CycleTimer.time CLOCK_RATE CycleTimer.Unit.s t * ((CLOCK_RATE : Nat) : ℚ)
      = ((t.cycles : Nat) : ℚ) := by
  have hq : ((CLOCK_RATE : Nat) : ℚ) ≠ 0 := by
    exact_mod_cast Nat.pos_iff_ne_zero.mp hc
  refine ⟨fun U => rfl, rfl, rfl, rfl, rfl, ?_, ?_⟩
  · simp only [CycleTimer.time, CycleTimer.clockRate, CycleTimer.Unit.val]
    field_simp
  · simp only [CycleTimer.time, CycleTimer.clockRate, CycleTimer.Unit.val]
    field_simp

theorem time_unit_conversion_witness :
    0 < 4000000000 ∧
    CycleTimer.time 4000000000 CycleTimer.Unit.ms (CycleTimer.stop true 8 CycleTimer.new)
      = CycleTimer.time 4000000000 CycleTimer.Unit.s (CycleTimer.stop true 8 CycleTimer.new)
          * 1000 :=
  ⟨by decide,
    (time_unit_conversion 4000000000 (by decide)
      (CycleTimer.stop true 8 CycleTimer.new)).2.2.2.2.2.1⟩

/-! ## Averager -/

section AveragerLemmas

variable {T : Type}

theorem averager_total_addAll [Add T] (ULONG_SIZE : Nat) (vs : List T) (a : Averager T) :
    (Averager.addAll ULONG_SIZE vs a).total_ = vs.foldl (fun x y => x + y) a.total_ := by
  induction vs generalizing a with
  | nil => rfl
  | cons v vs ih =>
    have hstep : Averager.addAll ULONG_SIZE (v :: vs) a
        = Averager.addAll ULONG_SIZE vs (a.add ULONG_SIZE v) := rfl
    rw [hstep, ih (a.add ULONG_SIZE v)]
    rfl

theorem foldl_add_eq_sum [AddMonoid T] (vs : List T) (x : T) :
    vs.foldl (fun x y => x + y) x = x + vs.sum := by
  induction vs generalizing x with
  | nil => simp
  | cons v vs ih => rw [List.foldl_cons, ih, List.sum_cons, add_assoc]

theorem averager_total_eq_sum [AddMonoid T] (ULONG_SIZE : Nat) (vs : List T) :
    (Averager.addAll ULONG_SIZE vs Averager.new).total = vs.sum := by
  show (Averager.addAll ULONG_SIZE vs Averager.new).total_ = vs.sum
  rw [averager_total_addAll, foldl_add_eq_sum]
  show (0 : T) + vs.sum = vs.sum
  rw [zero_add]

end AveragerLemmas

/-! ## RunningAverager -/

section RunningAveragerLemmas

variable {T : Type}

theorem increment_eq (VALUES k : Nat) (h1 : 1 ≤ VALUES) (h32 : VALUES < UINT32_SIZE) :
    RunningAverager.increment VALUES (k % VALUES) = (k + 1) % VALUES := by
  have hlt : k % VALUES < VALUES := Nat.mod_lt _ h1
  have hV : (VALUES + UINT32_SIZE - 1) % UINT32_SIZE = VALUES - 1 := by
    unfold UINT32_SIZE at *
    omega
  unfold RunningAverager.increment
  rw [hV, Nat.add_mod k 1 VALUES]
  by_cases hk : k % VALUES = VALUES - 1
  · rw [if_pos hk, hk]
    by_cases hone : VALUES = 1
    · subst hone; rfl
    · have h1m : 1 % VALUES = 1 := Nat.mod_eq_of_lt (by omega)
      rw [h1m, show VALUES - 1 + 1 = VALUES from by omega, Nat.mod_self]
  · rw [if_neg hk]
    have h1m : 1 % VALUES = 1 := Nat.mod_eq_of_lt (by omega)
    rw [h1m, Nat.mod_eq_of_lt (show k % VALUES + 1 < VALUES from by omega)]
    unfold UINT32_SIZE at *
    omega

theorem mod_ne_of_between (VALUES k j : Nat) (hkj : k < j) (hj : j < k + VALUES) :
    j % VALUES ≠ k % VALUES := by
  intro h
  have h0 := Nat.sub_mod_eq_zero_of_mod_eq h
  rw [Nat.mod_eq_of_lt (by omega)] at h0
  omega

theorem running_addAll_append [Zero T] [Add T] [Sub T] (VALUES : Nat) (vs ws : List T)
    (r : RunningAverager T) :
    RunningAverager.addAll VALUES (vs ++ ws) r
      = RunningAverager.addAll VALUES ws (RunningAverager.addAll VALUES vs r) := by
  simp [RunningAverager.addAll, List.foldl_append]

theorem lastN_append_singleton [AddCommGroup T] (VALUES : Nat) (h1 : 1 ≤ VALUES) (vs : List T)
    (v : T) :
    (lastN VALUES (vs ++ [v])).sum
      = (lastN VALUES vs).sum
          - (if VALUES ≤ vs.length then vs.getD (vs.length - VALUES) 0 else 0) + v := by
  unfold lastN
  rw [List.length_append, List.length_singleton]
  by_cases hk : VALUES ≤ vs.length
  · rw [if_pos hk]
    have hlt : vs.length - VALUES < vs.length := by omega
    rw [show vs.length + 1 - VALUES = vs.length - VALUES + 1 from by omega,
      List.drop_append_of_le_length (by omega), List.sum_append,
      List.drop_eq_getElem_cons hlt, List.getD_eq_getElem?_getD,
      List.getElem?_eq_getElem hlt]
    simp only [List.sum_cons, List.sum_nil, Option.getD_some]
    abel
  · rw [if_neg hk, show vs.length + 1 - VALUES = 0 from by omega,
      show vs.length - VALUES = 0 from by omega]
    simp

theorem running_invariant [AddCommGroup T] (VALUES : Nat) (h1 : 1 ≤ VALUES)
    (h32 : VALUES < UINT32_SIZE) (vs : List T) :
    (RunningAverager.addAll VALUES vs (RunningAverager.new VALUES)).next_
      = vs.length % VALUES ∧
    (RunningAverager.addAll VALUES vs (RunningAverager.new VALUES)).values_.length = VALUES ∧
    (∀ j, vs.length ≤ j → j < vs.length + VALUES →
      (RunningAverager.addAll VALUES vs (RunningAverager.new VALUES)).values_.getD (j % VALUES) 0
        = if VALUES ≤ j then vs.getD (j - VALUES) 0 else 0) ∧
    (RunningAverager.addAll VALUES vs (RunningAverager.new VALUES)).running_total_
      = (lastN VALUES vs).sum := by
  induction vs using List.reverseRecOn with
  | nil =>
    refine ⟨(Nat.zero_mod VALUES).symm, List.length_replicate _ _, ?_, ?_⟩
    swap
    · show (0 : T) = (lastN VALUES ([] : List T)).sum
      simp [lastN]
    intro j _ hj
    have hjV : ¬ VALUES ≤ j := by simp at hj; omega
    rw [if_neg hjV]
    show (List.replicate VALUES (0 : T)).getD (j % VALUES) 0 = 0
    rw [List.getD_eq_getElem?_getD, List.getElem?_replicate]
    split <;> rfl
  | append_singleton vs v ih =>
    obtain ⟨hnext, hlen, hvals, htot⟩ := ih
    rw [running_addAll_append]
    have hstep : ∀ r : RunningAverager T,
        RunningAverager.addAll VALUES [v] r = RunningAverager.add VALUES v r := fun _ => rfl
    rw [hstep]
    generalize RunningAverager.addAll VALUES vs (RunningAverager.new VALUES) = r at *
    have hk : vs.length % VALUES < VALUES := Nat.mod_lt _ h1
    refine ⟨?_, ?_, ?_, ?_⟩
    · show RunningAverager.increment VALUES r.next_ = _
      rw [hnext, increment_eq VALUES vs.length h1 h32, List.length_append,
        List.length_singleton]
    · show (r.values_.set r.next_ v).length = VALUES
      rw [List.length_set, hlen]
    · intro j hj1 hj2
      rw [List.length_append, List.length_singleton] at hj1 hj2
      show (r.values_.set r.next_ v).getD (j % VALUES) 0 = _
      rw [hnext, List.getD_eq_getElem?_getD]
      by_cases hjk : j = vs.length + VALUES
      · subst hjk
        rw [Nat.add_mod_right, List.getElem?_set_self (by rw [hlen]; exact hk),
          if_pos (Nat.le_add_left _ _), Nat.add_sub_cancel,
          List.getD_append_right _ _ _ _ (Nat.le_refl _), Nat.sub_self]
        rfl
      · have hne : vs.length % VALUES ≠ j % VALUES :=
          fun h => mod_ne_of_between VALUES vs.length j (by omega) (by omega) h.symm
        rw [List.getElem?_set_ne hne, ← List.getD_eq_getElem?_getD,
          hvals j (by omega) (by omega)]
        by_cases hVj : VALUES ≤ j
        · rw [if_pos hVj, if_pos hVj, List.getD_append _ _ _ _ (by omega)]
        · rw [if_neg hVj, if_neg hVj]
    · show r.running_total_ - r.values_.getD r.next_ 0 + v = _
      rw [lastN_append_singleton VALUES h1, htot, hnext,
        hvals vs.length (Nat.le_refl _) (by omega)]

/-- C9, counterexample: the default element type `double` with `VALUES = 2` and the calls
`add(1e16); add(1); add(0)`. After the second call the total is `1e16`, because `1e16 + 1`
rounds to `1e16`; the third call subtracts the `1e16` that leaves the window and adds `0`. So
`total()` is `0` and `average()` is `0`, while the last two values added, `1` and `0`, have the
sum `1`, which divided by `VALUES` is `0.5`. -/
theorem running_total_drifts_in_double :
    (RunningAverager.addAll 2 [Double.ofNat 10000000000000000, Double.ofNat 1]
      (RunningAverager.new 2)).total = Double.ofNat 10000000000000000 ∧
    [Double.ofNat 10000000000000000, Double.ofNat 1, Double.ofNat 0].length = 3 ∧
    (RunningAverager.addAll 2 [Double.ofNat 10000000000000000, Double.ofNat 1, Double.ofNat 0]
      (RunningAverager.new 2)).total = Double.ofNat 0 ∧
    (lastN (min 3 2)
      [Double.ofNat 10000000000000000, Double.ofNat 1, Double.ofNat 0]).sum = Double.ofNat 1 ∧
    (RunningAverager.addAll 2 [Double.ofNat 10000000000000000, Double.ofNat 1, Double.ofNat 0]
      (RunningAverager.new 2)).total
      ≠ (lastN (min 3 2)
          [Double.ofNat 10000000000000000, Double.ofNat 1, Double.ofNat 0]).sum ∧
    (RunningAverager.addAll 2 [Double.ofNat 10000000000000000, Double.ofNat 1, Double.ofNat 0]
      (RunningAverager.new 2)).average 2 = Double.ofNat 0 ∧
    (lastN (min 3 2)
      [Double.ofNat 10000000000000000, Double.ofNat 1, Double.ofNat 0]).sum
        / ((2 : Nat) : Double) = { mant := 1, exp := -1 } := by
  set_option maxRecDepth 100000 in
  decide

/-- C9, amended: for `1 ≤ VALUES` (an `unsigned`), every element type whose `+` and `-` are
exact, that is form a commutative group, and every sequence of `k` values added to a new
`RunningAverager<VALUES>`, `total()` is the sum of the last `min(k, VALUES)` values added and
`average()` is that sum divided by `VALUES`; once `VALUES ≤ k` the average is the mean of the
last `VALUES` values. -/
theorem running_total_and_average [AddCommGroup T] [Div T] [NatCast T] (VALUES : Nat)
    (h1 : 1 ≤ VALUES) (h32 : VALUES < UINT32_SIZE) (vs : List T) :
    (lastN (min vs.length VALUES) vs).length = min vs.length VALUES ∧
    (RunningAverager.addAll VALUES vs (RunningAverager.new VALUES)).total
      = (lastN (min vs.length VALUES) vs).sum ∧
    (RunningAverager.addAll VALUES vs (RunningAverager.new VALUES)).average VALUES
      = (lastN (min vs.length VALUES) vs).sum / ((VALUES : Nat) : T) ∧
    (VALUES ≤ vs.length →
      (lastN VALUES vs).length = VALUES ∧
      (RunningAverager.addAll VALUES vs (RunningAverager.new VALUES)).average VALUES
        = mean (lastN VALUES vs)) := by
  have htot := (running_invariant VALUES h1 h32 vs).2.2.2
  have hmin : lastN (min vs.length VALUES) vs = lastN VALUES vs := by
    unfold lastN
    rw [show vs.length - min vs.length VALUES = vs.length - VALUES from by omega]
  have hlen : ∀ n, (lastN n vs).length = min vs.length n := by
    intro n
    unfold lastN
    rw [List.length_drop]
    omega
  refine ⟨?_, ?_, ?_, ?_⟩
  · rw [hlen]; omega
  · rw [hmin]; exact htot
  · rw [hmin]
    show _ / _ = _
    rw [htot]
  · intro hk
    have hl : (lastN VALUES vs).length = VALUES := by rw [hlen]; omega
    refine ⟨hl, ?_⟩
    show _ / _ = _
    rw [htot, mean, hl]

theorem running_total_and_average_witness :
    1 ≤ 2 ∧ 2 < UINT32_SIZE ∧
    (RunningAverager.addAll 2 ([5, 7, 11] : List ℤ) (RunningAverager.new 2)).total
      = (lastN (min ([5, 7, 11] : List ℤ).length 2) ([5, 7, 11] : List ℤ)).sum :=
  ⟨by decide, by decide,
    (running_total_and_average 2 (by decide) (by decide) ([5, 7, 11] : List ℤ)).2.1⟩

/-- C10, counterexample: with `VALUES = 2`, after the single call `add(4)` the average is
`4 / 2 = 2` while the mean of the added values is `4`; with `VALUES = 1`, after `add(1); add(3)`
the average is `3` while the mean of the added values is `2`. With the default element type
`double`, `VALUES = 2` and `add(1e16); add(1); add(0)` the average is `0`: it is not the mean of
the added values, and not the mean `0.5` of the last two either, because `1e16 + 1` was rounded
to `1e16` before `1e16` was subtracted again. -/
theorem running_average_not_mean_of_all :
    (RunningAverager.addAll 2 ([4] : List ℚ) (RunningAverager.new 2)).average 2 = 2 ∧
    mean ([4] : List ℚ) = 4 ∧
    (RunningAverager.addAll 2 ([4] : List ℚ) (RunningAverager.new 2)).average 2
      ≠ mean ([4] : List ℚ) ∧
    (RunningAverager.addAll 1 ([1, 3] : List ℚ) (RunningAverager.new 1)).average 1 = 3 ∧
    mean ([1, 3] : List ℚ) = 2 ∧
    (RunningAverager.addAll 1 ([1, 3] : List ℚ) (RunningAverager.new 1)).average 1
      ≠ mean ([1, 3] : List ℚ) ∧
    (RunningAverager.addAll 2 [Double.ofNat 10000000000000000, Double.ofNat 1, Double.ofNat 0]
      (RunningAverager.new 2)).average 2 = Double.ofNat 0 ∧
    mean (lastN 2 [Double.ofNat 10000000000000000, Double.ofNat 1, Double.ofNat 0])
      = { mant := 1, exp := -1 } ∧
    (RunningAverager.addAll 2 [Double.ofNat 10000000000000000, Double.ofNat 1, Double.ofNat 0]
      (RunningAverager.new 2)).average 2
      ≠ mean [Double.ofNat 10000000000000000, Double.ofNat 1, Double.ofNat 0] := by
  have ha : (RunningAverager.addAll 2 ([4] : List ℚ) (RunningAverager.new 2)).average 2 = 2 := by
    norm_num [RunningAverager.addAll, RunningAverager.add, RunningAverager.new,
      RunningAverager.average]
  have hm : mean ([4] : List ℚ) = 4 := by
    norm_num [mean]
  have hb : (RunningAverager.addAll 1 ([1, 3] : List ℚ) (RunningAverager.new 1)).average 1
      = 3 := by
    norm_num [RunningAverager.addAll, RunningAverager.add, RunningAverager.new,
      RunningAverager.average, RunningAverager.increment, UINT32_SIZE]
  have hn : mean ([1, 3] : List ℚ) = 2 := by
    norm_num [mean]
  have hd : (RunningAverager.addAll 2
        [Double.ofNat 10000000000000000, Double.ofNat 1, Double.ofNat 0]
        (RunningAverager.new 2)).average 2 = Double.ofNat 0 ∧
      mean (lastN 2 [Double.ofNat 10000000000000000, Double.ofNat 1, Double.ofNat 0])
        = { mant := 1, exp := -1 } ∧
      (RunningAverager.addAll 2
        [Double.ofNat 10000000000000000, Double.ofNat 1, Double.ofNat 0]
        (RunningAverager.new 2)).average 2
        ≠ mean [Double.ofNat 10000000000000000, Double.ofNat 1, Double.ofNat 0] := by
    set_option maxRecDepth 100000 in
    decide
  refine ⟨ha, hm, ?_, hb, hn, ?_, hd.1, hd.2.1, hd.2.2⟩
  · rw [ha, hm]; norm_num
  · rw [hb, hn]; norm_num

/-- C10, amended: for `1 ≤ VALUES`, every element type whose `+` and `-` are exact, that is form
a commutative group, and every sequence of at least `VALUES` values added to a new
`RunningAverager<VALUES>`, `average()` returns the mean of the last `VALUES` values added; when
exactly `VALUES` values have been added this is the mean of all of the added values. -/
theorem running_average_window_mean [AddCommGroup T] [Div T] [NatCast T] (VALUES : Nat)
    (h1 : 1 ≤ VALUES) (h32 : VALUES < UINT32_SIZE) (vs : List T) (hk : VALUES ≤ vs.length) :
    (lastN VALUES vs).length = VALUES ∧
    (RunningAverager.addAll VALUES vs (RunningAverager.new VALUES)).average VALUES
      = mean (lastN VALUES vs) ∧
    (vs.length = VALUES →
      (RunningAverager.addAll VALUES vs (RunningAverager.new VALUES)).average VALUES
        = mean vs) := by
  have htot := (running_invariant VALUES h1 h32 vs).2.2.2
  have hl : (lastN VALUES vs).length = VALUES := by
    unfold lastN
    rw [List.length_drop]
    omega
  have hmean : (RunningAverager.addAll VALUES vs (RunningAverager.new VALUES)).average VALUES
      = mean (lastN VALUES vs) := by
    show _ / _ = _
    rw [htot, mean, hl]
  refine ⟨hl, hmean, ?_⟩
  intro heq
  have hall : lastN VALUES vs = vs := by
    unfold lastN
    rw [heq, Nat.sub_self, List.drop_zero]
  rw [hmean, hall]

theorem running_average_window_mean_witness :
    1 ≤ 2 ∧ 2 < UINT32_SIZE ∧ 2 ≤ ([5, 7, 11] : List ℚ).length ∧
    (RunningAverager.addAll 2 ([5, 7, 11] : List ℚ) (RunningAverager.new 2)).average 2
      = mean (lastN 2 ([5, 7, 11] : List ℚ)) :=
  ⟨by decide, by decide, by decide,
    (running_average_window_mean 2 (by decide) (by decide) ([5, 7, 11] : List ℚ)
      (by decide)).2.1⟩

end RunningAveragerLemmas

/-! ## LazyArray -/

section LazyArrayLemmas

variable {T : Type}

theorem valid_eq_some (N i : Nat) (s : LazyArray T) (hwf : s.WF N) (hi : i < N) :
    s.valid i = some false ∨ s.valid i = some true := by
  have hlen : i < s.set_.length := by rw [hwf.1]; exact hi
  unfold LazyArray.valid
  rw [List.getElem?_eq_getElem hlen]
  cases s.set_[i] <;> simp

theorem emplace_of_set {A : Type} (ctor : A → T) (i : Nat) (v : A) (s : LazyArray T)
    (h : s.valid i = some true) :
    LazyArray.emplace ctor i v s
      = some ({ set_ := s.set_, array_ := (s.array_.set i none).set i (some (ctor v)) },
          [AllocCall.destroy i (s.array_.getD i none), AllocCall.construct i (ctor v)]) := by
  unfold LazyArray.valid at h
  simp [LazyArray.emplace, h]

theorem emplace_of_not_set {A : Type} (ctor : A → T) (i : Nat) (v : A) (s : LazyArray T)
    (h : s.valid i = some false) :
    LazyArray.emplace ctor i v s
      = some ({ set_ := s.set_.set i true, array_ := s.array_.set i (some (ctor v)) },
          [AllocCall.construct i (ctor v)]) := by
  unfold LazyArray.valid at h
  simp [LazyArray.emplace, h]

/-- C11: for every array state with `N` positions, every position `i < N` and every argument
`v`, `emplace(i, v)` returns; the allocator calls it makes are one `destroy` of what slot `i`
held, made first and only when the slot was set, then one `construct` of the object built from
`v`; afterwards slot `i` is valid and holds that object, and the flag and the contents of every
other slot `j ≠ i` are what they were. -/
theorem emplace_sets_slot {A : Type} (ctor : A → T) (N i : Nat) (v : A) (s : LazyArray T)
    (hwf : s.WF N) (hi : i < N) :
    ∃ s' : LazyArray T,
      LazyArray.emplace ctor i v s
        = some (s',
            (if s.valid i = some true then [AllocCall.destroy i (s.array_.getD i none)]
              else []) ++ [AllocCall.construct i (ctor v)]) ∧
      s'.WF N ∧
      s'.valid i = some true ∧
      s'.array_[i]? = some (some (ctor v)) ∧
      (∀ j, j ≠ i → s'.valid j = s.valid j ∧ s'.array_[j]? = s.array_[j]?) := by
  have hset : i < s.set_.length := by rw [hwf.1]; exact hi
  have harr : i < s.array_.length := by rw [hwf.2]; exact hi
  rcases valid_eq_some N i s hwf hi with h | h
  · refine ⟨{ set_ := s.set_.set i true, array_ := s.array_.set i (some (ctor v)) },
      ?_, ?_, ?_, ?_, ?_⟩
    · rw [emplace_of_not_set ctor i v s h, h]
      rfl
    · exact ⟨by simp [hwf.1], by simp [hwf.2]⟩
    · simp [LazyArray.valid, hset]
    · simp [harr]
    · intro j hj
      have hij : i ≠ j := fun e => hj e.symm
      exact ⟨by simp [LazyArray.valid, List.getElem?_set_ne hij],
        by simp [List.getElem?_set_ne hij]⟩
  · refine ⟨{ set_ := s.set_, array_ := (s.array_.set i none).set i (some (ctor v)) },
      ?_, ?_, ?_, ?_, ?_⟩
    · rw [emplace_of_set ctor i v s h, h]
      rfl
    · exact ⟨by simp [hwf.1], by simp [hwf.2]⟩
    · exact h
    · simp [harr]
    · intro j hj
      have hij : i ≠ j := fun e => hj e.symm
      exact ⟨rfl, by simp [List.getElem?_set_ne hij]⟩

theorem emplace_sets_slot_witness :
    (LazyArray.WF 2 ({ set_ := [false, true], array_ := [none, some 5] } : LazyArray Nat)) ∧
    1 < 2 ∧
    ∃ s' : LazyArray Nat,
      LazyArray.emplace (fun n : Nat => n + 100) 1 7
          ({ set_ := [false, true], array_ := [none, some 5] } : LazyArray Nat)
        = some (s',
            (if LazyArray.valid 1
                  ({ set_ := [false, true], array_ := [none, some 5] } : LazyArray Nat)
                = some true
              then [AllocCall.destroy 1
                ((({ set_ := [false, true], array_ := [none, some 5] } :
                  LazyArray Nat).array_).getD 1 none)]
              else []) ++ [AllocCall.construct 1 ((fun n : Nat => n + 100) 7)]) ∧
      s'.WF 2 ∧
      s'.valid 1 = some true ∧
      s'.array_[1]? = some (some ((fun n : Nat => n + 100) 7)) ∧
      (∀ j, j ≠ 1 → s'.valid j
          = LazyArray.valid j
              ({ set_ := [false, true], array_ := [none, some 5] } : LazyArray Nat) ∧
        s'.array_[j]?
          = (({ set_ := [false, true], array_ := [none, some 5] } :
              LazyArray Nat).array_)[j]?) :=
  ⟨⟨rfl, rfl⟩, by decide,
    emplace_sets_slot (fun n : Nat => n + 100) 2 1 7
      ({ set_ := [false, true], array_ := [none, some 5] } : LazyArray Nat)
      ⟨rfl, rfl⟩ (by decide)⟩

theorem destroy_of_not_set (i : Nat) (s : LazyArray T) (h : s.valid i = some false) :
    LazyArray.destroy i s = some (s, []) := by
  unfold LazyArray.valid at h
  simp [LazyArray.destroy, h]

theorem destroy_of_set (i : Nat) (s : LazyArray T) (h : s.valid i = some true) :
    LazyArray.destroy i s
      = some ({ set_ := s.set_.set i false, array_ := s.array_.set i none },
          [AllocCall.destroy i (s.array_.getD i none)]) := by
  unfold LazyArray.valid at h
  simp [LazyArray.destroy, h]

/-- C12: for every array state with `N` positions and every position `i < N`, `destroy(i)`
returns. When slot `i` is not set it leaves the whole state as it was and calls no destructor.
When slot `i` is set it makes exactly one allocator call, the `destroy` of the object in slot
`i`, after which `valid(i)` is false and the slot holds no object. In both cases the flag and
the contents of every other slot `j ≠ i` are what they were. -/
theorem destroy_clears_slot (N i : Nat) (s : LazyArray T) (hwf : s.WF N) (hi : i < N) :
    ∃ (s' : LazyArray T) (calls : List (AllocCall T)),
      LazyArray.destroy i s = some (s', calls) ∧
      s'.WF N ∧
      (s.valid i = some false ∨ s.valid i = some true) ∧
      (s.valid i = some false → s' = s ∧ calls = []) ∧
      (s.valid i = some true →
        calls = [AllocCall.destroy i (s.array_.getD i none)] ∧
        (∀ x : T, s.array_[i]? = some (some x) → calls = [AllocCall.destroy i (some x)]) ∧
        s'.valid i = some false ∧
        s'.array_[i]? = some none) ∧
      (∀ j, j ≠ i → s'.valid j = s.valid j ∧ s'.array_[j]? = s.array_[j]?) := by
  have hset : i < s.set_.length := by rw [hwf.1]; exact hi
  have harr : i < s.array_.length := by rw [hwf.2]; exact hi
  rcases valid_eq_some N i s hwf hi with h | h
  · refine ⟨s, [], destroy_of_not_set i s h, hwf, Or.inl h, fun _ => ⟨rfl, rfl⟩, ?_,
      fun j _ => ⟨rfl, rfl⟩⟩
    intro ht
    rw [h] at ht
    exact absurd ht (by decide)
  · refine ⟨{ set_ := s.set_.set i false, array_ := s.array_.set i none },
      [AllocCall.destroy i (s.array_.getD i none)], destroy_of_set i s h, ?_, Or.inr h, ?_, ?_,
      ?_⟩
    · exact ⟨by simp [hwf.1], by simp [hwf.2]⟩
    · intro hf
      rw [h] at hf
      exact absurd hf (by decide)
    · intro _
      refine ⟨rfl, ?_, ?_, ?_⟩
      · intro x hx
        rw [List.getD_eq_getElem?_getD, hx]
        rfl
      · simp [LazyArray.valid, hset]
      · simp [harr]
    · intro j hj
      have hij : i ≠ j := fun e => hj e.symm
      exact ⟨by simp [LazyArray.valid, List.getElem?_set_ne hij],
        by simp [List.getElem?_set_ne hij]⟩

theorem destroy_clears_slot_witness :
    (LazyArray.WF 2 ({ set_ := [false, true], array_ := [none, some 5] } : LazyArray Nat)) ∧
    1 < 2 ∧
    ∃ (s' : LazyArray Nat) (calls : List (AllocCall Nat)),
      LazyArray.destroy 1 ({ set_ := [false, true], array_ := [none, some 5] } : LazyArray Nat)
        = some (s', calls) ∧
      s' = ({ set_ := [false, false], array_ := [none, none] } : LazyArray Nat) ∧
      calls = [AllocCall.destroy 1 (some 5)] := by
  refine ⟨⟨rfl, rfl⟩, by decide, ?_⟩
  obtain ⟨s', calls, hd, _, _, _, _, _⟩ :=
    destroy_clears_slot 2 1 ({ set_ := [false, true], array_ := [none, some 5] } : LazyArray Nat)
      ⟨rfl, rfl⟩ (by decide)
  refine ⟨s', calls, hd, ?_, ?_⟩
  · have he : LazyArray.destroy 1
        ({ set_ := [false, true], array_ := [none, some 5] } : LazyArray Nat)
        = some (({ set_ := [false, false], array_ := [none, none] } : LazyArray Nat),
            [AllocCall.destroy 1 (some 5)]) := by decide
    rw [he] at hd
    exact (congrArg Prod.fst (Option.some.inj hd)).symm
  · have he : LazyArray.destroy 1
        ({ set_ := [false, true], array_ := [none, some 5] } : LazyArray Nat)
        = some (({ set_ := [false, false], array_ := [none, none] } : LazyArray Nat),
            [AllocCall.destroy 1 (some 5)]) := by decide
    rw [he] at hd
    exact (congrArg Prod.snd (Option.some.inj hd)).symm

/-! ### `at(i)` -/

theorem at_beyond (N i : Nat) (s : LazyArray T) (hi : N < i) :
    LazyArray.at_ N i s = AtResult.out_of_range OutOfRange.index_out_of_range := by
  unfold LazyArray.at_
  rw [if_pos hi]

theorem at_inside (N i : Nat) (s : LazyArray T) (hwf : s.WF N) (hi : i < N) :
    (s.valid i = some false →
      LazyArray.at_ N i s = AtResult.out_of_range OutOfRange.value_not_set) ∧
    (s.valid i = some true →
      LazyArray.at_ N i s = AtResult.element (s.array_.getD i none)) := by
  have harr : i < s.array_.length := by rw [hwf.2]; exact hi
  have hnot : ¬ i > N := by omega
  constructor
  · intro h
    unfold LazyArray.valid at h
    simp [LazyArray.at_, hnot, h]
  · intro h
    unfold LazyArray.valid at h
    simp [LazyArray.at_, hnot, h, List.getD_eq_getElem?_getD, List.getElem?_eq_getElem harr]

/-- C13, failing input: `at(N)`. The test `i > N` is false at `i = N`, so no
`"index out of range"` is thrown and `set_[N]`, one position past the end of the flags, is read.
This holds for every array (with `N` the number of its flags), here also for a
`LazyArray<T, 2>` whose two slots are set, where `at(2)` reads `set_[2]`; `at(3)` throws. -/
theorem at_index_N_reads_outside_flags :
    (∀ (T : Type) (s : LazyArray T),
      LazyArray.at_ s.set_.length s.set_.length s = AtResult.read_outside_set) ∧
    LazyArray.at_ 2 2 ({ set_ := [true, true], array_ := [some 4, some 5] } : LazyArray Nat)
      = AtResult.read_outside_set ∧
    LazyArray.at_ 2 2 ({ set_ := [true, true], array_ := [some 4, some 5] } : LazyArray Nat)
      ≠ AtResult.out_of_range OutOfRange.index_out_of_range ∧
    LazyArray.at_ 2 3 ({ set_ := [true, true], array_ := [some 4, some 5] } : LazyArray Nat)
      = AtResult.out_of_range OutOfRange.index_out_of_range := by
  refine ⟨?_, by decide, by decide, by decide⟩
  intro T s
  have hnone : s.set_[s.set_.length]? = none := List.getElem?_eq_none (Nat.le_refl _)
  simp [LazyArray.at_, hnone]

end LazyArrayLemmas

end Toolbox
